import Mathlib

/-!
Verification of the libdvbv5 MPEG-TS descriptor engine interface
(`lib/include/libdvbv5/descriptors.h`) against its specification.

The header declares the engine's interface: `dvb_desc_parse` walks a byte
buffer of concatenated TLV descriptor records (1 tag byte, 1 length byte,
`length` payload bytes) and builds a linked chain of `struct dvb_desc`
records, dispatching through the tag-indexed registry of
`struct dvb_descriptor` behaviour entries.  The walker's implementation is
not part of the shown interface, so it is modelled here from the
specification's algorithm; the `bswap16`/`bswap32` macros and the
`uint16_t buflen` parameter type are taken directly from the header.

Bytes are modelled as `Nat` values reduced modulo 256 at every read,
buffers as `List Nat` together with an explicit `buflen`, and the record
chain as a Lean list (the `next` pointer of `struct dvb_desc` becomes the
list constructor).
-/

namespace Dvb

/-- A byte read from the buffer: `uint8_t` access, out-of-range indices
read as 0 (the model only ever relies on indices below `buflen`). -/
def byteAt (buf : List Nat) (i : Nat) : Nat :=
  buf.getD i 0 % 256

/-- The payload slice `buf[start .. start+len)`, read byte by byte. -/
def sliceBytes (buf : List Nat) (start len : Nat) : List Nat :=
  (List.range len).map (fun i => byteAt buf (start + i))

/-- Modelled from the spec: the registry row `struct dvb_descriptor`
(descriptors.h declares the row type and the table `dvb_descriptors`, but
the table's contents live in descriptors.c, which is not part of the shown
interface).  Following spec §3, a Behavior Entry is
`{name, decode, print, free, size}`; only `name` and `decode` matter for
parsing.  A decode function takes the raw payload bytes and returns the
typed record value or rejects; `init = none` models a row whose decode
(`init`) function pointer is NULL. -/
structure dvb_descriptor (α : Type) where
  name : String
  init : Option (List Nat → Option α)

/-- Modelled from the spec: the 256-slot tag-indexed registry
(spec §3 "Registry": slots default to "no entry").  `none` models an
absent slot. -/
def DvbRegistry (α : Type) : Type :=
  Nat → Option (dvb_descriptor α)

/-- Registry lookup composed with the entry's decode function: yields the
decode function when the tag is registered with a non-null `init`, and
`none` both for an unregistered tag and for an entry without a decode
function (the two cases spec §4.3 step 4 sends to the generic fallback). -/
def lookupDecode (reg : DvbRegistry α) (tag : Nat) :
    Option (List Nat → Option α) :=
  match reg tag with
  | some entry => entry.init
  | none => none

/-- One node of the parsed chain, modelling `struct dvb_desc`: the common
header is `(type, length)`; a `typed` node carries the value produced by a
registered decode function, a `generic` node carries the raw payload bytes
verbatim (the `uint8_t data[]` member). -/
inductive dvb_desc (α : Type) where
  | typed (type length : Nat) (value : α)
  | generic (type length : Nat) (data : List Nat)
  deriving DecidableEq

/-- The descriptor type (tag byte) of a chain node. -/
def dvb_desc.tag : dvb_desc α → Nat
  | .typed t _ _ => t
  | .generic t _ _ => t

/-- The on-wire `length` byte (encoded_length) of a chain node. -/
def dvb_desc.len : dvb_desc α → Nat
  | .typed _ l _ => l
  | .generic _ l _ => l

/-- The `(tag, encoded_length)` header pair of a chain node. -/
def dvb_desc.pair (d : dvb_desc α) : Nat × Nat :=
  (d.tag, d.len)

/-- The two fatal parse errors of spec §7; `RecordDecodeFailure` and
`UnregisteredTag` are by design not errors of the whole call. -/
inductive ParseError where
  | truncatedHeader
  | truncatedPayload
  deriving DecidableEq

/-- Modelled from the spec: the descriptor walker's loop (spec §4.3;
descriptors.h only declares `dvb_desc_parse`, its body in descriptors.c is
not part of the shown interface).  Starting at cursor `pos`:
1. with zero bytes remaining stop successfully, with exactly 1 byte
   remaining report `truncatedHeader`;
2. read `tag` and `len` (the encoded_length byte);
3. if `len` exceeds the bytes remaining after the 2-byte header report
   `truncatedPayload`;
4. dispatch on `lookupDecode`: a successful decode appends a typed record,
   a failing decode skips the record, no decode appends a generic record
   carrying the payload verbatim;
5. advance the cursor by `2 + len`.
Returns the chain (in wire order) and the final cursor position. -/
def dvb_desc_parse_from (reg : DvbRegistry α) (buf : List Nat)
    (buflen : Nat) : (pos : Nat) → Except ParseError (List (dvb_desc α) × Nat)
  | pos =>
    if _h0 : buflen ≤ pos then .ok ([], pos)
    else if _h1 : buflen = pos + 1 then .error .truncatedHeader
    else
      let tag := byteAt buf pos
      let len := byteAt buf (pos + 1)
      if _h2 : buflen - (pos + 2) < len then .error .truncatedPayload
      else
        match dvb_desc_parse_from reg buf buflen (pos + 2 + len) with
        | .error e => .error e
        | .ok (tail, endPos) =>
          match lookupDecode reg tag with
          | some decode =>
            match decode (sliceBytes buf (pos + 2) len) with
            | some v => .ok (.typed tag len v :: tail, endPos)
            | none => .ok (tail, endPos)
          | none => .ok (.generic tag len (sliceBytes buf (pos + 2) len) :: tail, endPos)
  termination_by pos => buflen - pos
  decreasing_by omega

/-- Modelled from the spec: the public entry point
`int dvb_desc_parse(parms, buf, uint16_t buflen, struct dvb_desc **head_desc)`.
The `uint16_t` parameter type reduces the caller's length modulo 2^16
(this is in the header).  The result models the pair
(return code, caller-visible `*head_desc`): 0 and the chain on success; a
negative value on error with no chain handed back, the spec's §7 policy
that the partial chain is freed before the error return. -/
def dvb_desc_parse (reg : DvbRegistry α) (buf : List Nat) (buflen : Nat) :
    Int × Option (List (dvb_desc α)) :=
  match dvb_desc_parse_from reg buf (buflen % 65536) 0 with
  | .ok (chain, _) => (0, some chain)
  | .error _ => (-1, none)

/-- Fuel-bounded variant of the walker loop, structurally recursive on
`fuel`: returns `none` when the iteration budget runs out.  Used to state
that the walk is a bounded pass (spec §5). -/
def dvb_desc_parse_fuel (reg : DvbRegistry α) (buf : List Nat)
    (buflen : Nat) : Nat → Nat → Option (Except ParseError (List (dvb_desc α) × Nat))
  | 0, _ => none
  | fuel + 1, pos =>
    if buflen ≤ pos then some (.ok ([], pos))
    else if buflen = pos + 1 then some (.error .truncatedHeader)
    else
      let tag := byteAt buf pos
      let len := byteAt buf (pos + 1)
      if buflen - (pos + 2) < len then some (.error .truncatedPayload)
      else
        match dvb_desc_parse_fuel reg buf buflen fuel (pos + 2 + len) with
        | none => none
        | some (.error e) => some (.error e)
        | some (.ok (tail, endPos)) =>
          match lookupDecode reg tag with
          | some decode =>
            match decode (sliceBytes buf (pos + 2) len) with
            | some v => some (.ok (.typed tag len v :: tail, endPos))
            | none => some (.ok (tail, endPos))
          | none => some (.ok (.generic tag len (sliceBytes buf (pos + 2) len) :: tail, endPos))

/-- Serialization of a list of `(tag, payload)` records into a wire
buffer: each record contributes its tag byte, its length byte and the
payload bytes. -/
def serializeTLV (recs : List (Nat × List Nat)) : List Nat :=
  (recs.map (fun r => r.1 :: r.2.length :: r.2)).flatten

/-- A list of `(tag, payload)` records is a valid TLV sequence when every
tag is a byte, every payload fits the 1-byte length field, and every
payload entry is a byte. -/
def ValidTLV (recs : List (Nat × List Nat)) : Prop :=
  ∀ r ∈ recs, r.1 < 256 ∧ r.2.length < 256 ∧ ∀ b ∈ r.2, b < 256

instance : DecidablePred ValidTLV := fun recs =>
  inferInstanceAs (Decidable (∀ r ∈ recs, _ ∧ _ ∧ ∀ b ∈ r.2, b < 256))

/-- The chain node the walker produces for one serialized record `(t, p)`:
a typed node when `t` has a succeeding decode, nothing when the decode
rejects `p` (the record is skipped), a generic node otherwise. -/
def expectedRecord (reg : DvbRegistry α) (r : Nat × List Nat) :
    Option (dvb_desc α) :=
  match lookupDecode reg r.1 with
  | some decode =>
    match decode r.2 with
    | some v => some (.typed r.1 r.2.length v)
    | none => none
  | none => some (.generic r.1 r.2.length r.2)

/-- The all-empty registry: every tag unregistered. -/
def emptyReg : DvbRegistry (List Nat) := fun _ => none

/-- A small concrete registry used to exercise the walker: tag 1 has a
decode that accepts any payload and returns it, tag 2 has a decode that
rejects every payload, tag 3 is registered without a decode function, and
every other tag is unregistered. -/
def testReg : DvbRegistry (List Nat) := fun t =>
  if t = 1 then some ⟨"accepting", some (fun p => some p)⟩
  else if t = 2 then some ⟨"rejecting", some (fun _ => none)⟩
  else if t = 3 then some ⟨"no-decode", none⟩
  else none

/-- Modelled from the spec: `uint32_t dvb_bcd(uint32_t bcd)` (descriptors.h
only declares the prototype; its body is not part of the shown interface).
Spec §4.1: each nibble of the value is a decimal digit, the result is the
decimal integer formed by reading the nibbles most-significant first.
`dvb_bcd_go n b` converts the low `n` nibbles of `b`. -/
def dvb_bcd_go : Nat → Nat → Nat
  | 0, _ => 0
  | n + 1, b => dvb_bcd_go n (b / 16) * 10 + b % 16

/-- Modelled from the spec: the BCD conversion on a `uint32_t` (8 nibbles);
the argument is reduced modulo 2^32 by the parameter type.  An
out-of-range nibble (10–15) is carried through the same arithmetic — a
soft anomaly, never a failure (spec §4.1). -/
def dvb_bcd (bcd : Nat) : Nat :=
  dvb_bcd_go 8 (bcd % 2 ^ 32)

/-- 16-bit byte swap: `ntohs` as it behaves on the little-endian hosts the
`bswap16` macro exists for (on a big-endian host `ntohs` is the identity
and the macro's store is value-preserving). -/
def ntohs (b : Nat) : Nat :=
  b % 256 * 256 + b / 256 % 256

/-- 32-bit byte swap, `ntohl` on a little-endian host. -/
def ntohl (b : Nat) : Nat :=
  b % 256 * 2 ^ 24 + b / 2 ^ 8 % 256 * 2 ^ 16 + b / 2 ^ 16 % 256 * 2 ^ 8 +
    b / 2 ^ 24 % 256

/-- The store the `bswap16`/`bswap32` macros act on: the argument lvalue
`b` and the rest of memory. -/
structure SwapState where
  b : Nat
  mem : List Nat
  deriving DecidableEq

/-- The macro `#define bswap16(b) do { b = ntohs(b); } while (0)`
(descriptors.h line 67): it assigns the swapped value back into its
argument. -/
def bswap16 (s : SwapState) : SwapState :=
  { s with b := ntohs s.b }

/-- The macro `#define bswap32(b) do { b = ntohl(b); } while (0)`
(descriptors.h line 71). -/
def bswap32 (s : SwapState) : SwapState :=
  { s with b := ntohl s.b }

/-! ### Buffer access lemmas -/

theorem byteAt_append (l1 l2 : List Nat) (i : Nat) :
    byteAt (l1 ++ l2) (l1.length + i) = byteAt l2 i := by
  simp only [byteAt, List.getD, List.get?_eq_getElem?]
  rw [List.getElem?_append_right (by omega)]
  simp

theorem byteAt_append_lt (l1 l2 : List Nat) (i : Nat) (h : i < l1.length) :
    byteAt (l1 ++ l2) i = byteAt l1 i := by
  simp only [byteAt, List.getD, List.get?_eq_getElem?]
  rw [List.getElem?_append, if_pos h]

theorem byteAt_getElem (l : List Nat) (i : Nat) (h : i < l.length) :
    byteAt l i = l[i] % 256 := by
  simp only [byteAt, List.getD, List.get?_eq_getElem?,
    List.getElem?_eq_getElem h, Option.getD_some]

theorem byteAt_cons_succ (a : Nat) (l : List Nat) (i : Nat) :
    byteAt (a :: l) (i + 1) = byteAt l i := by
  simp [byteAt, List.getD]

theorem byteAt_cons_zero (a : Nat) (l : List Nat) :
    byteAt (a :: l) 0 = a % 256 := by
  simp [byteAt, List.getD]

theorem byteAt_cons_one (a b : Nat) (l : List Nat) :
    byteAt (a :: b :: l) 1 = b % 256 := by
  simp [byteAt, List.getD]

theorem serializeTLV_nil : serializeTLV [] = [] := rfl

theorem serializeTLV_cons (r : Nat × List Nat) (recs : List (Nat × List Nat)) :
    serializeTLV (r :: recs) = r.1 :: r.2.length :: (r.2 ++ serializeTLV recs) := by
  simp [serializeTLV]

theorem serializeTLV_cons_length (r : Nat × List Nat)
    (recs : List (Nat × List Nat)) :
    (serializeTLV (r :: recs)).length =
      2 + r.2.length + (serializeTLV recs).length := by
  rw [serializeTLV_cons]
  simp
  omega

/-- One-step unfolding of the walker loop. -/
theorem parse_from_eq (reg : DvbRegistry α) (buf : List Nat) (buflen pos : Nat) :
    dvb_desc_parse_from reg buf buflen pos =
      if buflen ≤ pos then .ok ([], pos)
      else if buflen = pos + 1 then .error .truncatedHeader
      else if buflen - (pos + 2) < byteAt buf (pos + 1) then
        .error .truncatedPayload
      else
        match dvb_desc_parse_from reg buf buflen
            (pos + 2 + byteAt buf (pos + 1)) with
        | .error e => .error e
        | .ok (tail, endPos) =>
          match lookupDecode reg (byteAt buf pos) with
          | some decode =>
            match decode (sliceBytes buf (pos + 2) (byteAt buf (pos + 1))) with
            | some v =>
              .ok (.typed (byteAt buf pos) (byteAt buf (pos + 1)) v :: tail,
                endPos)
            | none => .ok (tail, endPos)
          | none =>
            .ok (.generic (byteAt buf pos) (byteAt buf (pos + 1))
                (sliceBytes buf (pos + 2) (byteAt buf (pos + 1))) :: tail,
              endPos) := by
  rw [dvb_desc_parse_from]
  simp only [dite_eq_ite]

/-- Two buffers that agree on slice reads produce equal slices. -/
theorem sliceBytes_congr (buf1 buf2 : List Nat) (start len : Nat)
    (h : ∀ i, i < len → byteAt buf1 (start + i) = byteAt buf2 (start + i)) :
    sliceBytes buf1 start len = sliceBytes buf2 start len := by
  simp only [sliceBytes]
  apply List.map_congr_left
  intro i hi
  exact h i (List.mem_range.mp hi)

/-- The walker only reads bytes at indices below `buflen`: two buffers
that agree below `buflen` parse identically from any cursor. -/
theorem parse_from_frame_aux (reg : DvbRegistry α) (buf1 buf2 : List Nat)
    (buflen : Nat) (hag : ∀ i, i < buflen → byteAt buf1 i = byteAt buf2 i) :
    ∀ n pos, buflen - pos ≤ n →
      dvb_desc_parse_from reg buf1 buflen pos
        = dvb_desc_parse_from reg buf2 buflen pos := by
  intro n
  induction n with
  | zero =>
    intro pos hn
    rw [parse_from_eq reg buf1, parse_from_eq reg buf2,
      if_pos (by omega : buflen ≤ pos), if_pos (by omega : buflen ≤ pos)]
  | succ n ihn =>
    intro pos hn
    rw [parse_from_eq reg buf1, parse_from_eq reg buf2]
    by_cases h0 : buflen ≤ pos
    · rw [if_pos h0, if_pos h0]
    rw [if_neg h0, if_neg h0]
    by_cases h1 : buflen = pos + 1
    · rw [if_pos h1, if_pos h1]
    rw [if_neg h1, if_neg h1]
    have e0 : byteAt buf2 pos = byteAt buf1 pos := (hag pos (by omega)).symm
    have e1 : byteAt buf2 (pos + 1) = byteAt buf1 (pos + 1) :=
      (hag (pos + 1) (by omega)).symm
    rw [e0, e1]
    by_cases h2 : buflen - (pos + 2) < byteAt buf1 (pos + 1)
    · rw [if_pos h2, if_pos h2]
    rw [if_neg h2, if_neg h2]
    have eslice : sliceBytes buf2 (pos + 2) (byteAt buf1 (pos + 1))
        = sliceBytes buf1 (pos + 2) (byteAt buf1 (pos + 1)) := by
      apply sliceBytes_congr
      intro i hi
      exact (hag (pos + 2 + i) (by omega)).symm
    rw [eslice, ihn (pos + 2 + byteAt buf1 (pos + 1)) (by omega)]

/-- On success the final cursor lies between the start cursor and
`buflen`: the walk consumes at most `buflen - pos` bytes. -/
theorem parse_from_ok_bounds_aux (reg : DvbRegistry α) (buf : List Nat)
    (buflen : Nat) :
    ∀ n pos chain endPos, buflen - pos ≤ n → pos ≤ buflen →
      dvb_desc_parse_from reg buf buflen pos = .ok (chain, endPos) →
      pos ≤ endPos ∧ endPos ≤ buflen := by
  intro n
  induction n with
  | zero =>
    intro pos chain endPos hn hple h
    rw [parse_from_eq, if_pos (by omega : buflen ≤ pos)] at h
    cases h
    omega
  | succ n ihn =>
    intro pos chain endPos hn hple h
    rw [parse_from_eq] at h
    by_cases h0 : buflen ≤ pos
    · rw [if_pos h0] at h
      cases h
      omega
    rw [if_neg h0] at h
    by_cases h1 : buflen = pos + 1
    · rw [if_pos h1] at h
      cases h
    rw [if_neg h1] at h
    by_cases h2 : buflen - (pos + 2) < byteAt buf (pos + 1)
    · rw [if_pos h2] at h
      cases h
    rw [if_neg h2] at h
    rcases hrec : dvb_desc_parse_from reg buf buflen
        (pos + 2 + byteAt buf (pos + 1)) with e | ⟨tail, ePos⟩
    · rw [hrec] at h
      cases h
    · rw [hrec] at h
      have hb := ihn (pos + 2 + byteAt buf (pos + 1)) tail ePos
        (by omega) (by omega) hrec
      rcases hdec : lookupDecode reg (byteAt buf pos) with _ | d
      · simp only [hdec] at h
        cases h
        omega
      · rcases hd : d (sliceBytes buf (pos + 2) (byteAt buf (pos + 1)))
            with _ | v
        · simp only [hdec, hd] at h
          cases h
          omega
        · simp only [hdec, hd] at h
          cases h
          omega

/-- The walk is a bounded pass: since every iteration advances the cursor
by `2 + encoded_length ≥ 2` bytes, a fuel budget of
`(buflen - pos) / 2 + 1` iterations already reproduces the unbounded
loop. -/
theorem parse_fuel_eq_aux (reg : DvbRegistry α) (buf : List Nat)
    (buflen : Nat) :
    ∀ fuel pos, (buflen - pos) / 2 + 1 ≤ fuel →
      dvb_desc_parse_fuel reg buf buflen fuel pos
        = some (dvb_desc_parse_from reg buf buflen pos) := by
  intro fuel
  induction fuel with
  | zero =>
    intro pos h
    exact absurd h (by omega)
  | succ fuel ihf =>
    intro pos h
    rw [parse_from_eq]
    simp only [dvb_desc_parse_fuel]
    by_cases h0 : buflen ≤ pos
    · rw [if_pos h0, if_pos h0]
    rw [if_neg h0, if_neg h0]
    by_cases h1 : buflen = pos + 1
    · rw [if_pos h1, if_pos h1]
    rw [if_neg h1, if_neg h1]
    by_cases h2 : buflen - (pos + 2) < byteAt buf (pos + 1)
    · rw [if_pos h2, if_pos h2]
    rw [if_neg h2, if_neg h2]
    rw [ihf (pos + 2 + byteAt buf (pos + 1)) (by omega)]
    rcases hrec : dvb_desc_parse_from reg buf buflen
        (pos + 2 + byteAt buf (pos + 1)) with e | ⟨tail, ePos⟩
    · rfl
    · rcases hdec : lookupDecode reg (byteAt buf pos) with _ | d
      · simp only [hdec]
      · rcases hd : d (sliceBytes buf (pos + 2) (byteAt buf (pos + 1)))
            with _ | v <;> simp only [hdec, hd]

/-! ### The walker on a serialized TLV sequence -/

/-- Parsing a buffer that carries a valid serialized TLV sequence starting
at `pos` and ending at the buffer end succeeds, consumes the whole
sequence, and produces exactly the records `expectedRecord` prescribes
(typed for a succeeding decode, skipped for a rejecting decode, generic
otherwise), in wire order. -/
theorem parse_from_serialized (reg : DvbRegistry α) :
    ∀ (recs : List (Nat × List Nat)) (B : List Nat) (pos : Nat),
      ValidTLV recs →
      (∀ i, i < (serializeTLV recs).length →
        byteAt B (pos + i) = byteAt (serializeTLV recs) i) →
      dvb_desc_parse_from reg B (pos + (serializeTLV recs).length) pos
        = .ok (recs.filterMap (expectedRecord reg),
            pos + (serializeTLV recs).length) := by
  intro recs
  induction recs with
  | nil =>
    intro B pos _ _
    rw [dvb_desc_parse_from]
    simp [serializeTLV_nil]
  | cons r rest ih =>
    obtain ⟨t, p⟩ := r
    intro B pos hv hag
    have hr : t < 256 ∧ p.length < 256 ∧ ∀ b ∈ p, b < 256 :=
      hv (t, p) (List.mem_cons_self _ _)
    have hrest : ValidTLV rest := fun x hx => hv x (List.mem_cons_of_mem _ hx)
    have hser : serializeTLV ((t, p) :: rest)
        = t :: p.length :: (p ++ serializeTLV rest) := serializeTLV_cons _ _
    have hlen_ser : (serializeTLV ((t, p) :: rest)).length
        = 2 + p.length + (serializeTLV rest).length := serializeTLV_cons_length _ _
    have htag : byteAt B pos = t := by
      have h0 := hag 0 (by omega)
      rw [hser] at h0
      simpa [byteAt_cons_zero, Nat.mod_eq_of_lt hr.1] using h0
    have hlen : byteAt B (pos + 1) = p.length := by
      have h1 := hag 1 (by omega)
      rw [hser] at h1
      simpa [byteAt_cons_one, Nat.mod_eq_of_lt hr.2.1] using h1
    have hslice : sliceBytes B (pos + 2) p.length = p := by
      apply List.ext_getElem (by simp [sliceBytes])
      intro i h1 h2
      have hi : i < p.length := h2
      simp only [sliceBytes, List.getElem_map, List.getElem_range]
      have h3 := hag (2 + i) (by omega)
      rw [hser] at h3
      rw [show pos + 2 + i = pos + (2 + i) by omega, h3,
        show 2 + i = (i + 1) + 1 by omega,
        byteAt_cons_succ, byteAt_cons_succ, byteAt_append_lt _ _ _ hi,
        byteAt_getElem _ _ hi]
      exact Nat.mod_eq_of_lt (hr.2.2 _ (List.getElem_mem hi))
    have hagS : ∀ i, i < (serializeTLV rest).length →
        byteAt B (pos + 2 + p.length + i) = byteAt (serializeTLV rest) i := by
      intro i hi
      have h4 := hag (2 + (p.length + i)) (by omega)
      rw [hser] at h4
      rw [show pos + 2 + p.length + i = pos + (2 + (p.length + i)) by omega, h4,
        show 2 + (p.length + i) = (p.length + i + 1) + 1 by omega,
        byteAt_cons_succ, byteAt_cons_succ, byteAt_append]
    have hrec := ih B (pos + 2 + p.length) hrest hagS
    rw [hlen_ser, show pos + (2 + p.length + (serializeTLV rest).length)
      = pos + 2 + p.length + (serializeTLV rest).length by omega]
    rw [dvb_desc_parse_from]
    rw [dif_neg (by omega), dif_neg (by omega)]
    simp only [htag, hlen, hslice]
    rw [dif_neg (by omega)]
    rw [hrec]
    rw [List.filterMap_cons]
    unfold expectedRecord
    rcases hdec : lookupDecode reg t with _ | d
    · simp
    · rcases hd : d p with _ | v <;> simp [hd]

/-- A chain node produced for a serialized record carries that record's
`(tag, encoded_length)` pair, with `encoded_length` the payload length. -/
theorem expectedRecord_pair (reg : DvbRegistry α) (r : Nat × List Nat)
    (d : dvb_desc α) (h : expectedRecord reg r = some d) :
    d.pair = (r.1, r.2.length) := by
  unfold expectedRecord at h
  rcases hdec : lookupDecode reg r.1 with _ | f
  · simp only [hdec] at h
    cases h
    rfl
  · simp only [hdec] at h
    rcases hd : f r.2 with _ | v
    · simp only [hd] at h
      cases h
    · simp only [hd] at h
      cases h
      rfl

/-- When no record is skipped, the chain's header pairs are exactly the
serialized records' `(tag, payload length)` pairs, in order. -/
theorem filterMap_expected_pairs (reg : DvbRegistry α) :
    ∀ recs : List (Nat × List Nat),
      (∀ r ∈ recs, (expectedRecord reg r).isSome) →
      (recs.filterMap (expectedRecord reg)).map dvb_desc.pair
        = recs.map (fun r => (r.1, r.2.length)) := by
  intro recs
  induction recs with
  | nil => intro _; simp
  | cons r rest ih =>
    intro hall
    rcases hsome : expectedRecord reg r with _ | d
    · exact absurd (hall r (List.mem_cons_self _ _)) (by simp [hsome])
    · rw [List.filterMap_cons, hsome]
      simp only [List.map_cons]
      rw [expectedRecord_pair reg r d hsome,
        ih (fun x hx => hall x (List.mem_cons_of_mem _ hx))]

/-- Closed form of the BCD helper: converting `n` nibbles yields the
base-10 number whose digit list (least significant first) is the nibble
list (least significant first). -/
theorem dvb_bcd_go_eq (n : Nat) :
    ∀ b, dvb_bcd_go n b
      = Nat.ofDigits 10 ((List.range n).map (fun i => b / 16 ^ i % 16)) := by
  induction n with
  | zero =>
    intro b
    simp [dvb_bcd_go, Nat.ofDigits]
  | succ n ih =>
    intro b
    rw [dvb_bcd_go, List.range_succ_eq_map]
    simp only [List.map_cons, List.map_map, pow_zero, Nat.div_one]
    rw [Nat.ofDigits_cons]
    have hc : ((fun i => b / 16 ^ i % 16) ∘ Nat.succ)
        = fun i => (b / 16) / 16 ^ i % 16 := by
      funext i
      simp only [Function.comp_apply, Nat.div_div_eq_div_mul]
      rw [pow_succ]
      ring_nf
    rw [hc, ih (b / 16)]
    omega

/-- The 16-bit byte swap is an involution on the field width. -/
theorem ntohs_ntohs (b : Nat) : ntohs (ntohs b) = b % 2 ^ 16 := by
  simp only [ntohs]
  have e1 : (b % 256 * 256 + b / 256 % 256) % 256 = b / 256 % 256 := by omega
  have e2 : (b % 256 * 256 + b / 256 % 256) / 256 = b % 256 := by omega
  rw [e1, e2]
  omega

/-- Byte-level view of the 32-bit swap: on a value given by its four
bytes, most significant first, `ntohl` reverses the byte order. -/
theorem ntohl_bytes (a0 a1 a2 a3 : Nat) (h0 : a0 < 256) (h1 : a1 < 256)
    (h2 : a2 < 256) (h3 : a3 < 256) :
    ntohl (a0 * 2 ^ 24 + a1 * 2 ^ 16 + a2 * 2 ^ 8 + a3)
      = a3 * 2 ^ 24 + a2 * 2 ^ 16 + a1 * 2 ^ 8 + a0 := by
  simp only [ntohl]
  omega

/-- The 32-bit byte swap is an involution on the field width. -/
theorem ntohl_ntohl (b : Nat) : ntohl (ntohl b) = b % 2 ^ 32 := by
  rw [show ntohl b = b % 256 * 2 ^ 24 + b / 2 ^ 8 % 256 * 2 ^ 16 +
      b / 2 ^ 16 % 256 * 2 ^ 8 + b / 2 ^ 24 % 256 from rfl,
    ntohl_bytes _ _ _ _ (by omega) (by omega) (by omega) (by omega)]
  omega

/-! ### Claim theorems -/

/-- Claim C1, counterexample: the structural round-trip fails as
universally stated.  The buffer `[2, 0]` is the valid serialization of the
single record `(tag 2, empty payload)`; under `testReg` tag 2's
registered decode rejects every payload, so parse succeeds but returns
the empty chain, whose `(tag, encoded_length)` pairs are not the original
pair list `[(2, 0)]`. -/
theorem claim_C1_counterexample :
    ValidTLV [(2, ([] : List Nat))] ∧
    serializeTLV [(2, ([] : List Nat))] = [2, 0] ∧
    dvb_desc_parse_from testReg [2, 0] 2 0
      = .ok (([] : List (dvb_desc (List Nat))), 2) ∧
    ([] : List (dvb_desc (List Nat))).map dvb_desc.pair ≠ [(2, 0)] := by
  refine ⟨by decide, by rfl, ?_, by decide⟩
  simp [parse_from_eq, byteAt, sliceBytes, lookupDecode, testReg, List.getD]

/-- Claim C1 (amended): for every valid concatenation of TLV records none
of which is rejected by a registered decode function, parse succeeds,
consumes the whole buffer, and the chain's records carry exactly the
original `(tag, encoded_length)` pairs in wire order, each
`encoded_length` being the payload byte count of its record (header not
counted). -/
theorem claim_C1 (reg : DvbRegistry α) (recs : List (Nat × List Nat))
    (hv : ValidTLV recs)
    (hns : ∀ r ∈ recs, (expectedRecord reg r).isSome) :
    ∃ chain,
      dvb_desc_parse_from reg (serializeTLV recs) (serializeTLV recs).length 0
        = .ok (chain, (serializeTLV recs).length) ∧
      chain.map dvb_desc.pair = recs.map (fun r => (r.1, r.2.length)) := by
  refine ⟨recs.filterMap (expectedRecord reg), ?_,
    filterMap_expected_pairs reg recs hns⟩
  have h := parse_from_serialized reg recs (serializeTLV recs) 0 hv
    (fun i _ => by rw [Nat.zero_add])
  simpa using h

/-- Witness for C1: a registered record then an unregistered record
round-trip their header pairs. -/
theorem claim_C1_witness :
    ∃ chain,
      dvb_desc_parse_from testReg (serializeTLV [(1, [7]), (9, [8, 9])])
          (serializeTLV [(1, [7]), (9, [8, 9])]).length 0
        = .ok (chain, (serializeTLV [(1, [7]), (9, [8, 9])]).length) ∧
      chain.map dvb_desc.pair = [(1, 1), (9, 2)] := by
  have h := claim_C1 testReg [(1, [7]), (9, [8, 9])] (by decide) (by decide)
  simpa using h

/-- Claim C2: the walker (1) reads no byte at an index at or beyond
`buflen` — parsing is unchanged under any modification of the buffer at
indices `≥ buflen`; (2) consumes at most `buflen - pos` bytes, ending at
a cursor `≤ buflen`; and (3) when a record's `encoded_length` exceeds the
bytes remaining after its 2-byte header it stops with a truncated-payload
error. -/
theorem claim_C2 (reg : DvbRegistry α) (buf1 buf2 : List Nat)
    (buflen pos : Nat) :
    ((∀ i, i < buflen → byteAt buf1 i = byteAt buf2 i) →
      dvb_desc_parse_from reg buf1 buflen pos
        = dvb_desc_parse_from reg buf2 buflen pos) ∧
    (∀ chain endPos, pos ≤ buflen →
      dvb_desc_parse_from reg buf1 buflen pos = .ok (chain, endPos) →
      endPos - pos ≤ buflen - pos ∧ endPos ≤ buflen) ∧
    (pos + 2 ≤ buflen → buflen - (pos + 2) < byteAt buf1 (pos + 1) →
      dvb_desc_parse_from reg buf1 buflen pos = .error .truncatedPayload) := by
  refine ⟨fun hag =>
    parse_from_frame_aux reg buf1 buf2 buflen hag (buflen - pos) pos le_rfl,
    ?_, ?_⟩
  · intro chain endPos hple h
    have hb := parse_from_ok_bounds_aux reg buf1 buflen (buflen - pos) pos
      chain endPos le_rfl hple h
    omega
  · intro hge hlt
    rw [parse_from_eq, if_neg (by omega), if_neg (by omega), if_pos hlt]

/-- Witness for C2 at concrete inputs: bytes past `buflen` do not change
the result; a successful parse of a 3-byte buffer ends at cursor 3 ≤ 3;
a record declaring length 9 with 1 byte remaining is a truncated
payload. -/
theorem claim_C2_witness :
    (dvb_desc_parse_from emptyReg [5, 1, 7] 3 0
      = dvb_desc_parse_from emptyReg [5, 1, 7, 99] 3 0) ∧
    ((3 : Nat) - 0 ≤ 3 - 0 ∧ (3 : Nat) ≤ 3) ∧
    dvb_desc_parse_from emptyReg [5, 9, 7] 3 0 = .error .truncatedPayload := by
  refine ⟨(claim_C2 emptyReg [5, 1, 7] [5, 1, 7, 99] 3 0).1 (by decide),
    (claim_C2 emptyReg [5, 1, 7] [5, 1, 7, 99] 3 0).2.1
      [.generic 5 1 [7]] 3 (by omega) ?_,
    (claim_C2 emptyReg [5, 9, 7] [5, 9, 7] 3 0).2.2 (by omega) (by decide)⟩
  simp [dvb_desc_parse_from, byteAt, sliceBytes, lookupDecode, emptyReg,
    List.getD, List.range_succ]

/-- Claim C3: exactly 1 byte remaining where a header is expected is a
truncated-header error; zero bytes remaining is a normal success with the
empty chain; a record declaring `encoded_length = 10` with only 5 bytes
remaining after its header is a truncated-payload error; and every error
the walker returns is one of these two truncations. -/
theorem claim_C3 (reg : DvbRegistry α) (buf : List Nat) (buflen pos : Nat) :
    (buflen = pos + 1 →
      dvb_desc_parse_from reg buf buflen pos = .error .truncatedHeader) ∧
    (buflen = pos →
      dvb_desc_parse_from reg buf buflen pos = .ok ([], pos)) ∧
    (byteAt buf (pos + 1) = 10 → buflen = pos + 2 + 5 →
      dvb_desc_parse_from reg buf buflen pos = .error .truncatedPayload) ∧
    (∀ e, dvb_desc_parse_from reg buf buflen pos = .error e →
      e = .truncatedHeader ∨ e = .truncatedPayload) := by
  refine ⟨?_, ?_, ?_, ?_⟩
  · intro h
    rw [parse_from_eq, if_neg (by omega), if_pos h]
  · intro h
    rw [parse_from_eq, if_pos (by omega)]
  · intro h10 hlen
    rw [parse_from_eq, if_neg (by omega), if_neg (by omega),
      if_pos (by rw [h10]; omega)]
  · intro e _
    cases e
    · exact Or.inl rfl
    · exact Or.inr rfl

/-- Witness for C3: a buffer of length 1 is a truncated header, the empty
buffer parses to the empty chain, and declared length 10 with 5 bytes
remaining is a truncated payload. -/
theorem claim_C3_witness :
    dvb_desc_parse_from emptyReg [5] 1 0 = .error .truncatedHeader ∧
    dvb_desc_parse_from emptyReg [] 0 0 = .ok ([], 0) ∧
    dvb_desc_parse_from emptyReg [1, 10, 0, 0, 0, 0, 0] 7 0
      = .error .truncatedPayload :=
  ⟨(claim_C3 emptyReg [5] 1 0).1 rfl,
    (claim_C3 emptyReg [] 0 0).2.1 rfl,
    (claim_C3 emptyReg [1, 10, 0, 0, 0, 0, 0] 7 0).2.2.1 (by decide) rfl⟩

/-- Claim C4: a record whose tag has no registry entry, or an entry
without a decode function (`lookupDecode` is `none` in both cases), never
fails: it becomes a generic record carrying tag, encoded_length and the
raw payload verbatim; and a registered-tag record followed by an
unregistered-tag record yields a chain of exactly length 2, typed record
first, generic record second, in wire order. -/
theorem claim_C4 (reg : DvbRegistry α) :
    (∀ t p, ValidTLV [(t, p)] → lookupDecode reg t = none →
      dvb_desc_parse_from reg (serializeTLV [(t, p)])
          (serializeTLV [(t, p)]).length 0
        = .ok ([.generic t p.length p], (serializeTLV [(t, p)]).length)) ∧
    (∀ t1 p1 t2 p2 d v, ValidTLV [(t1, p1), (t2, p2)] →
      lookupDecode reg t1 = some d → d p1 = some v →
      lookupDecode reg t2 = none →
      dvb_desc_parse_from reg (serializeTLV [(t1, p1), (t2, p2)])
          (serializeTLV [(t1, p1), (t2, p2)]).length 0
        = .ok ([.typed t1 p1.length v, .generic t2 p2.length p2],
            (serializeTLV [(t1, p1), (t2, p2)]).length)) := by
  constructor
  · intro t p hv hdec
    have h := parse_from_serialized reg [(t, p)] (serializeTLV [(t, p)]) 0 hv
      (fun i _ => by rw [Nat.zero_add])
    simpa [List.filterMap_cons, expectedRecord, hdec] using h
  · intro t1 p1 t2 p2 d v hv hdec1 hd1 hdec2
    have h := parse_from_serialized reg [(t1, p1), (t2, p2)]
      (serializeTLV [(t1, p1), (t2, p2)]) 0 hv (fun i _ => by rw [Nat.zero_add])
    simpa [List.filterMap_cons, expectedRecord, hdec1, hd1, hdec2] using h

/-- Witness for C4: tag 9 is unregistered in `testReg` (generic record);
tag 1 decodes and tag 9 falls back, chain of length 2 in wire order. -/
theorem claim_C4_witness :
    dvb_desc_parse_from testReg (serializeTLV [(9, [4, 2])])
        (serializeTLV [(9, [4, 2])]).length 0
      = .ok ([.generic 9 2 [4, 2]], (serializeTLV [(9, [4, 2])]).length) ∧
    dvb_desc_parse_from testReg (serializeTLV [(1, [7]), (9, [8])])
        (serializeTLV [(1, [7]), (9, [8])]).length 0
      = .ok ([.typed 1 1 [7], .generic 9 1 [8]],
          (serializeTLV [(1, [7]), (9, [8])]).length) :=
  ⟨(claim_C4 testReg).1 9 [4, 2] (by decide) rfl,
    (claim_C4 testReg).2 1 [7] 9 [8] (fun p => some p) [7] (by decide)
      rfl rfl rfl⟩

/-- Claim C5: a decode failure on the 2nd of 3 records does not abort the
parse: the chain contains records 1 and 3 only, in order, and the walk
still consumes all of record 2's `2 + encoded_length` bytes — the final
cursor is the sum of `2 + payload length` over all three records. -/
theorem claim_C5 (reg : DvbRegistry α) (r1 r2 r3 : Nat × List Nat)
    (rec1 rec3 : dvb_desc α) (d : List Nat → Option α)
    (hv : ValidTLV [r1, r2, r3])
    (h1 : expectedRecord reg r1 = some rec1)
    (h2d : lookupDecode reg r2.1 = some d) (h2 : d r2.2 = none)
    (h3 : expectedRecord reg r3 = some rec3) :
    dvb_desc_parse_from reg (serializeTLV [r1, r2, r3])
        (serializeTLV [r1, r2, r3]).length 0
      = .ok ([rec1, rec3], (serializeTLV [r1, r2, r3]).length) ∧
    (serializeTLV [r1, r2, r3]).length
      = (2 + r1.2.length) + (2 + r2.2.length) + (2 + r3.2.length) := by
  constructor
  · have h := parse_from_serialized reg [r1, r2, r3]
      (serializeTLV [r1, r2, r3]) 0 hv (fun i _ => by rw [Nat.zero_add])
    have hexp2 : expectedRecord reg r2 = none := by
      simp [expectedRecord, h2d, h2]
    simpa [List.filterMap_cons, h1, hexp2, h3] using h
  · rw [serializeTLV_cons_length, serializeTLV_cons_length,
      serializeTLV_cons_length, serializeTLV_nil]
    simp
    omega

/-- Witness for C5: records with tags 1, 2, 1 under `testReg`; the
rejecting decode of tag 2 skips the middle record while its 3 bytes are
still consumed. -/
theorem claim_C5_witness :
    dvb_desc_parse_from testReg (serializeTLV [(1, [7]), (2, [8]), (1, [9])])
        (serializeTLV [(1, [7]), (2, [8]), (1, [9])]).length 0
      = .ok ([.typed 1 1 [7], .typed 1 1 [9]],
          (serializeTLV [(1, [7]), (2, [8]), (1, [9])]).length) ∧
    (serializeTLV [(1, [7]), (2, [8]), (1, [9])]).length
      = (2 + 1) + (2 + 1) + (2 + 1) := by
  have h := claim_C5 testReg (1, [7]) (2, [8]) (1, [9])
    (.typed 1 1 [7]) (.typed 1 1 [9]) (fun _ => none)
    (by decide) rfl rfl rfl rfl
  simpa using h

/-- Claim C6: error atomicity of the entry point.  The return code is
negative exactly when no chain is handed back through `head_desc`, and
zero exactly when a chain (possibly empty) is handed back: a truncation
error never leaves a partial chain visible to the caller. -/
theorem claim_C6 (reg : DvbRegistry α) (buf : List Nat) (buflen : Nat) :
    ((dvb_desc_parse reg buf buflen).1 < 0 ↔
      (dvb_desc_parse reg buf buflen).2 = none) ∧
    ((dvb_desc_parse reg buf buflen).1 = 0 ↔
      ∃ chain, (dvb_desc_parse reg buf buflen).2 = some chain) := by
  unfold dvb_desc_parse
  rcases dvb_desc_parse_from reg buf (buflen % 65536) 0 with e | ⟨chain, endPos⟩
  · simp
  · simp

/-- Claim C7: the walk is a bounded pass.  Because every iteration
advances the cursor by `2 + encoded_length ≥ 2` bytes and the loop exits
when fewer than 2 bytes remain, a fuel budget of `(buflen - pos) / 2 + 1`
iterations already reproduces the unbounded loop, so parsing terminates
on every finite buffer. -/
theorem claim_C7 (reg : DvbRegistry α) (buf : List Nat)
    (buflen pos fuel : Nat) (h : (buflen - pos) / 2 + 1 ≤ fuel) :
    dvb_desc_parse_fuel reg buf buflen fuel pos
      = some (dvb_desc_parse_from reg buf buflen pos) :=
  parse_fuel_eq_aux reg buf buflen fuel pos h

/-- Witness for C7: a 5-byte buffer is fully parsed within
`5 / 2 + 1 = 3` iterations. -/
theorem claim_C7_witness :
    dvb_desc_parse_fuel testReg [1, 1, 7, 9, 0] 5 3 0
      = some (dvb_desc_parse_from testReg [1, 1, 7, 9, 0] 5 0) :=
  claim_C7 testReg [1, 1, 7, 9, 0] 5 0 3 (by decide)

/-- Claim C8: on a 32-bit value the BCD conversion returns the number
whose base-10 digit sequence is the value's nibble sequence (read
most-significant nibble first, i.e. the digit lists least-significant
first coincide); in particular `0x23 ↦ 23` and `0x99 ↦ 99`; and an
out-of-range nibble does not abort the conversion — `0x2a` (low nibble
10) still yields a result, `2 * 10 + 10 = 30`. -/
theorem claim_C8 (b : Nat)
    (hnib : ∀ i, i < 8 → b % 2 ^ 32 / 16 ^ i % 16 ≤ 9) :
    (dvb_bcd b
      = Nat.ofDigits 10 ((List.range 8).map (fun i => b % 2 ^ 32 / 16 ^ i % 16))
      ∧ ∀ i, i < 8 → b % 2 ^ 32 / 16 ^ i % 16 < 10) ∧
    dvb_bcd 0x23 = 23 ∧ dvb_bcd 0x99 = 99 ∧ dvb_bcd 0x2a = 30 := by
  refine ⟨⟨dvb_bcd_go_eq 8 (b % 2 ^ 32), fun i hi => by
    have := hnib i hi; omega⟩, by decide, by decide, by decide⟩

/-- Witness for C8 at `b = 0x23`: all nibbles are decimal digits and the
conversion yields the decimal reading. -/
theorem claim_C8_witness :
    ((dvb_bcd 0x23
      = Nat.ofDigits 10
          ((List.range 8).map (fun i => 0x23 % 2 ^ 32 / 16 ^ i % 16))
      ∧ ∀ i, i < 8 → 0x23 % 2 ^ 32 / 16 ^ i % 16 < 10) ∧
    dvb_bcd 0x23 = 23 ∧ dvb_bcd 0x99 = 99 ∧ dvb_bcd 0x2a = 30) :=
  claim_C8 0x23 (by decide)

/-- Claim C9, counterexample: `bswap16` is not state-preserving — on a
store whose argument field holds `0x0100` it overwrites the argument with
the byte-swapped value `0x0001`, so the claim that the macros leave their
argument unchanged is false. -/
theorem claim_C9_counterexample :
    bswap16 ⟨256, [7]⟩ ≠ ⟨256, [7]⟩ := by
  decide

/-- Claim C9 (amended): `bswap16`/`bswap32` are pure in their values —
each replaces its argument field with the byte-order-swapped
(network-to-host) value and leaves all other memory unchanged; the swap
reinterprets without loss (applying it twice restores the value modulo
the field width), and on a 16-bit field holding the little-endian image
of the network-order bytes `hi, lo` it produces the host value
`hi * 256 + lo`. -/
theorem claim_C9 (s : SwapState) (hi lo : Nat)
    (hhi : hi < 256) (hlo : lo < 256) :
    bswap16 s = ⟨ntohs s.b, s.mem⟩ ∧
    bswap32 s = ⟨ntohl s.b, s.mem⟩ ∧
    ntohs (ntohs s.b) = s.b % 2 ^ 16 ∧
    ntohl (ntohl s.b) = s.b % 2 ^ 32 ∧
    ntohs (lo * 256 + hi) = hi * 256 + lo := by
  refine ⟨rfl, rfl, ntohs_ntohs s.b, ntohl_ntohl s.b, ?_⟩
  simp only [ntohs]
  omega

/-- Witness for C9 at a concrete store and byte pair. -/
theorem claim_C9_witness :
    bswap16 ⟨0x3412, [5]⟩ = ⟨ntohs 0x3412, [5]⟩ ∧
    bswap32 ⟨0x3412, [5]⟩ = ⟨ntohl 0x3412, [5]⟩ ∧
    ntohs (ntohs 0x3412) = 0x3412 % 2 ^ 16 ∧
    ntohl (ntohl 0x3412) = 0x3412 % 2 ^ 32 ∧
    ntohs (0x34 * 256 + 0x12) = 0x12 * 256 + 0x34 :=
  claim_C9 ⟨0x3412, [5]⟩ 0x12 0x34 (by decide) (by decide)

/-- Claim C10: the entry point takes `buflen` as `uint16_t`, so the
caller-supplied length is reduced modulo 2^16 by the interface type and
the parsed region never extends past index 65535: parsing with length `L`
equals parsing with `L % 65536`, and every successful walk ends at a
cursor `≤ 65535`. -/
theorem claim_C10 (reg : DvbRegistry α) (buf : List Nat) (buflen : Nat) :
    dvb_desc_parse reg buf buflen = dvb_desc_parse reg buf (buflen % 65536) ∧
    (∀ chain endPos,
      dvb_desc_parse_from reg buf (buflen % 65536) 0 = .ok (chain, endPos) →
      endPos ≤ 65535) := by
  constructor
  · unfold dvb_desc_parse
    rw [Nat.mod_mod_of_dvd _ (dvd_refl _)]
  · intro chain endPos h
    have hb := parse_from_ok_bounds_aux reg buf (buflen % 65536)
      (buflen % 65536) 0 chain endPos (by omega) (by omega) h
    have hm : buflen % 65536 < 65536 := Nat.mod_lt _ (by omega)
    omega

/-- Witness for C10: a caller-supplied length of 65536 is reduced to 0 by
the `uint16_t` parameter, and the empty successful walk ends at cursor
0 ≤ 65535. -/
theorem claim_C10_witness :
    dvb_desc_parse emptyReg [] 65536 = dvb_desc_parse emptyReg [] 0 ∧
    (0 : Nat) ≤ 65535 := by
  refine ⟨by simpa using (claim_C10 emptyReg [] 65536).1,
    (claim_C10 emptyReg [] 65536).2 [] 0 ?_⟩
  rw [parse_from_eq, if_pos (by omega)]

end Dvb
